import Mathlib

/-!
Verification of the Tracker validation engine (`server/validation_engine.py`)
against its natural-language specification.

The Python module is shallowly embedded below.  MongoDB documents are
modelled as Lean structures; document field values that may hold a
datetime, a string or null are modelled by `BsonVal`, with `none` at the
`Option BsonVal` level standing for an absent key.  Datetimes are modelled
as integer seconds since the Unix epoch (pymongo returns naive UTC
datetimes; `timedelta.days` is floor division of the total seconds by
86400, which is `Int.fdiv · 86400` here).  Store availability is made
explicit: every operation that touches a MongoDB collection takes an
`avail : Bool` flag, and raises (returns `.error`) when the store is
down, mirroring a driver exception.  Exception propagation is modelled
with `Except`; a caught exception carries the store state at the moment
it was raised, since partial writes persist.
-/

namespace ValidationEngine

/-- A MongoDB field value as far as this engine inspects it: a (naive UTC)
datetime, a string, or null.  Python truthiness: null is falsy, a string
is truthy iff non-empty, a datetime is always truthy. -/
inductive BsonVal where
  | vDate (t : Int)
  | vStr (s : String)
  | vNull
deriving DecidableEq

/-- Python truthiness of a field value. -/
def BsonVal.truthy : BsonVal → Bool
  | .vDate _ => true
  | .vStr s => !s.isEmpty
  | .vNull => false

/-- Truthiness of `module.get(key)`: an absent key yields `None`, falsy. -/
def optTruthy (v : Option BsonVal) : Bool :=
  match v with
  | none => false
  | some b => b.truthy

/-- Truthiness of an optional string (e.g. `payload.get(...).get('name')`):
`None` and the empty string are falsy. -/
def strTruthy (v : Option String) : Bool :=
  match v with
  | none => false
  | some s => !s.isEmpty

/-- The `validationRule` subdocument.  `githubRepo` is the value
`rule.get('githubRepo')` fetches (`none` when the key is absent or null);
`hasOtherKeys` records whether the dict carries any other key, which only
matters for the dict's own truthiness in `if validation_rule and ...`.
(A rule `{'githubRepo': None}` is collapsed onto `githubRepo = none`; the
collapse is behaviour-preserving because dict truthiness is only ever
consulted in conjunction with the truthiness of the fetched value.) -/
structure ValidationRule where
  githubRepo : Option String
  hasOtherKeys : Bool
deriving DecidableEq

/-- Python truthiness of the rule dict: non-empty. -/
def ValidationRule.truthy (r : ValidationRule) : Bool :=
  r.githubRepo.isSome || r.hasOtherKeys

/-- Truthiness of `validation_rule.get('githubRepo')`. -/
def ValidationRule.repoTruthy (r : ValidationRule) : Bool :=
  match r.githubRepo with
  | some s => !s.isEmpty
  | none => false

/-- A module (assignment) embedded in a project document.  Identifier
fields are modelled as strings (`str()` of the stored ObjectId);
`none` stands for an absent key. -/
structure Module where
  _id : Option String
  id : Option String
  title : Option String
  description : Option String
  assignedToUserId : Option String
  status : Option String
  validationRule : Option ValidationRule
  dueDate : Option BsonVal
  createdAt : Option BsonVal
  completedAt : Option BsonVal
deriving DecidableEq

/-- A project document.  A project whose `modules` key is absent or not a
list is skipped by every loop in the engine, which is the same behaviour
as `modules = []`, so the field is modelled as a plain list. -/
structure Project where
  _id : String
  name : Option String
  teamId : Option String
  modules : List Module
deriving DecidableEq

/-- A user document. -/
structure User where
  _id : String
  githubUsername : Option String
  name : Option String
  username : Option String
  role : Option String
deriving DecidableEq

/-- The two collections of the `trackerdemo` database. -/
structure Store where
  users : List User
  projects : List Project
deriving DecidableEq

/-- `users_collection.find_one({'githubUsername': github_username})`. -/
def get_user_by_github_username (s : Store) (githubUsername : String) : Option User :=
  s.users.find? (fun u => u.githubUsername == some githubUsername)

/-!
## Assignment matcher (`find_module_in_projects`)

The Python loop, for each module in document order across all projects:
if the module is assigned to the user with the requested status, then

* when `validation_rule and validation_rule.get('githubRepo')` holds it
  returns the module on a case-insensitive repo match and otherwise just
  continues the scan (the inner `if` has no `else`);
* otherwise it returns the module at once as the no-rule fallback.
-/

/-- Python's `str.lower()` (character-wise lowering; repository names
are ASCII).  Defined through the character list so that it evaluates by
kernel reduction. -/
def lowerString (s : String) : String :=
  ⟨s.data.map Char.toLower⟩

/-- Whether the code takes the rule branch:
`validation_rule and validation_rule.get('githubRepo')` with the rule
defaulting to the (falsy) empty dict when the key is absent. -/
def ruleActive (vr : Option ValidationRule) : Bool :=
  match vr with
  | none => false
  | some r => r.truthy && r.repoTruthy

/-- The repo string compared in the rule branch (only consulted when
`ruleActive`; when active the key necessarily holds a non-empty string). -/
def ruleRepo (vr : Option ValidationRule) : String :=
  match vr with
  | some r => r.githubRepo.getD ""
  | none => ""

/-- A module satisfies the user/status filter of the scan:
`str(module.get('assignedToUserId')) == str(user_id)` and
`module.get('status') == status`.  An absent assignee stringifies to
`"None"`, which never equals a stringified ObjectId, so the absent case
is modelled as plain inequality. -/
def moduleMatches (userId moduleStatus : String) (m : Module) : Bool :=
  m.assignedToUserId == some userId && m.status == some moduleStatus

/-- A module is returned by the scan the moment it is reached: it passes
the user/status filter and either its rule matches the repo
case-insensitively or it has no active rule (fallback). -/
def isCandidate (userId repoName moduleStatus : String) (m : Module) : Bool :=
  moduleMatches userId moduleStatus m &&
    (if ruleActive m.validationRule
      then lowerString (ruleRepo m.validationRule) == lowerString repoName
      else true)

/-- The inner `for idx, module in enumerate(project['modules'])` loop. -/
def findInModules (userId repoName moduleStatus : String) :
    List Module → Nat → Option Nat
  | [], _ => none
  | m :: rest, idx =>
    if moduleMatches userId moduleStatus m then
      if ruleActive m.validationRule then
        if lowerString (ruleRepo m.validationRule) == lowerString repoName then
          some idx
        else
          findInModules userId repoName moduleStatus rest (idx + 1)
      else
        some idx
    else
      findInModules userId repoName moduleStatus rest (idx + 1)

/-- The outer `for project in projects` loop. -/
def findInProjects (userId repoName moduleStatus : String) :
    List Project → Option (Project × Nat)
  | [] => none
  | p :: rest =>
    match findInModules userId repoName moduleStatus p.modules 0 with
    | some idx => some (p, idx)
    | none => findInProjects userId repoName moduleStatus rest

/-- `find_module_in_projects(user_id, repo_name, status)`.  The Python
function returns `(None, None)` on failure and `(project, idx)` on
success, modelled as `Option (Project × Nat)`. -/
def find_module_in_projects (s : Store) (userId repoName moduleStatus : String) :
    Option (Project × Nat) :=
  findInProjects userId repoName moduleStatus s.projects

/-!
## Conditionless status update (`update_module_status`)

`projects_collection.update_one({'_id': project_id}, {'$set':
{f'modules.{i}.status': new_status, f'modules.{i}.completedAt': now}})`
followed by a re-read of the document when `modified_count > 0`.

The filter names only the `_id`; Mongo applies the `$set` to the first
matching document and counts it as modified iff some field actually
changed.  (The uses below always pass an index produced by the matcher,
so the index is in bounds; Mongo's padding of a too-short array with
nulls for an out-of-range positional `$set` is not modelled — the
embedded update is the identity there.)
-/

/-- Apply the `$set` of the two dotted paths to a project document. -/
def setModuleFields (p : Project) (i : Nat) (newStatus : String) (now : Int) : Project :=
  match p.modules.get? i with
  | some m =>
      { p with modules :=
          p.modules.set i { m with status := some newStatus,
                                   completedAt := some (.vDate now) } }
  | none => p

/-- `update_one` on the projects collection: rewrite the first document
matching the `_id` filter. -/
def updateFirstProject (projectId : String) (f : Project → Project) :
    List Project → List Project
  | [] => []
  | p :: rest =>
    if p._id == projectId then f p :: rest
    else p :: updateFirstProject projectId f rest

/-- `projects_collection.find_one({'_id': project_id})`. -/
def findProject (s : Store) (projectId : String) : Option Project :=
  s.projects.find? (fun p => p._id == projectId)

/-- Whether the `$set` changes the addressed document (Mongo's
`modified_count > 0`). -/
def updateModifies (p : Project) (i : Nat) (newStatus : String) (now : Int) : Bool :=
  match p.modules.get? i with
  | some m => !(m.status == some newStatus) || !(m.completedAt == some (.vDate now))
  | none => false

/-- `update_module_status(project_id, module_index, new_status)`: the
write is applied unconditionally; when `modified_count > 0` the project is
re-read and the module at the index returned, else `None`.  Returns the
Python result together with the store after the write. -/
def update_module_status (s : Store) (projectId : String) (moduleIndex : Nat)
    (now : Int) (newStatus : String) : Option Module × Store :=
  match findProject s projectId with
  | none => (none, s)
  | some p =>
    let newProjects :=
      updateFirstProject projectId
        (fun q => setModuleFields q moduleIndex newStatus now) s.projects
    let s' : Store := { s with projects := newProjects }
    if updateModifies p moduleIndex newStatus now then
      match findProject s' projectId with
      | some p' => (p'.modules.get? moduleIndex, s')
      | none => (none, s')
    else
      (none, s')

/-!
## Dates

`datetime.fromisoformat` is modelled on the grammar the engine's data
actually uses: `YYYY-MM-DD` and `YYYY-MM-DDTHH:MM:SS`, with full range
validation, converted to Unix seconds.  Strings outside this grammar
(including offset-carrying strings such as the `+00:00` the code
substitutes for a trailing `Z`) are rejected; in CPython an aware
datetime parses and then the naive-minus-aware subtraction raises, so
either way the computation lands in the same `except` branch and the
observable estimate agrees.
-/

/-- Gregorian leap year. -/
def isLeap (y : Int) : Bool :=
  (y % 4 == 0 && y % 100 != 0) || y % 400 == 0

/-- Length of a month. -/
def monthLength (y m : Int) : Int :=
  if m == 2 then (if isLeap y then 29 else 28)
  else if m == 4 || m == 6 || m == 9 || m == 11 then 30
  else 31

/-- Days from the civil date to the Unix epoch (proleptic Gregorian). -/
def daysFromCivil (y m d : Int) : Int :=
  let y' := if m <= 2 then y - 1 else y
  let era := Int.fdiv (if y' >= 0 then y' else y' - 399) 400
  let yoe := y' - era * 400
  let mp := Int.fmod (m + 9) 12
  let doy := Int.fdiv (153 * mp + 2) 5 + d - 1
  let doe := yoe * 365 + Int.fdiv yoe 4 - Int.fdiv yoe 100 + doy
  era * 146097 + doe - 719468

/-- All characters are ASCII digits (and there is at least one). -/
def allDigits (cs : List Char) : Bool :=
  !cs.isEmpty && cs.all Char.isDigit

/-- Decimal value of a digit run. -/
def digitsVal (cs : List Char) : Int :=
  (cs.foldl (fun n c => n * 10 + (c.toNat - Char.toNat '0')) 0 : Nat)

/-- Parse a `YYYY-MM-DD` character run to Unix seconds at midnight. -/
def parseDatePart (cs : List Char) : Except String Int :=
  let ys := cs.take 4
  let ms := (cs.drop 5).take 2
  let ds := (cs.drop 8).take 2
  if cs.length == 10 && allDigits ys && allDigits ms && allDigits ds &&
      cs.get? 4 == some '-' && cs.get? 7 == some '-' then
    let y := digitsVal ys
    let m := digitsVal ms
    let d := digitsVal ds
    if 1 <= y && 1 <= m && m <= 12 && 1 <= d && d <= monthLength y m then
      .ok (daysFromCivil y m d * 86400)
    else
      .error "Invalid isoformat string"
  else
    .error "Invalid isoformat string"

/-- Parse a `HH:MM:SS` character run to seconds past midnight. -/
def parseTimePart (cs : List Char) : Except String Int :=
  let hs := cs.take 2
  let ms := (cs.drop 3).take 2
  let ss := (cs.drop 6).take 2
  if cs.length == 8 && allDigits hs && allDigits ms && allDigits ss &&
      cs.get? 2 == some ':' && cs.get? 5 == some ':' then
    let h := digitsVal hs
    let m := digitsVal ms
    let sec := digitsVal ss
    if h <= 23 && m <= 59 && sec <= 59 then
      .ok (h * 3600 + m * 60 + sec)
    else
      .error "Invalid isoformat string"
  else
    .error "Invalid isoformat string"

/-- `datetime.fromisoformat` over the modelled grammar. -/
def fromisoformat (s : String) : Except String Int :=
  let cs := s.data
  if cs.length == 10 then
    parseDatePart cs
  else if cs.length == 19 && cs.get? 10 == some 'T' then do
    let d ← parseDatePart (cs.take 10)
    let t ← parseTimePart (cs.drop 11)
    .ok (d + t)
  else
    .error "Invalid isoformat string"

/-- Python's `str.replace(pat, rep)` (all non-overlapping occurrences,
left to right), via a character-count fuel so that it evaluates by
kernel reduction; the fuel is always sufficient for a non-empty
pattern. -/
def replaceFuel (pat rep : List Char) : Nat → List Char → List Char
  | 0, cs => cs
  | _ + 1, [] => []
  | fuel + 1, c :: cs =>
    if pat.isPrefixOf (c :: cs) then
      rep ++ replaceFuel pat rep fuel (cs.drop (pat.length - 1))
    else
      c :: replaceFuel pat rep fuel cs

/-- `s.replace(pat, rep)` on strings. -/
def pyReplace (s pat rep : String) : String :=
  ⟨replaceFuel pat.data rep.data s.data.length s.data⟩

/-!
## Delay estimator (`calculate_predictive_delay`)
-/

/-- The advisory estimate attached to a completion.
`avgCompletionTime` models `round(x, 1)` over exact rationals (Python
computes in binary floating point; none of the spec's observable facts
depend on the sub-ulp difference). -/
structure DelayEstimate where
  predictedDelay : Int
  delayReason : String
  confidence : String
  avgCompletionTime : Option Rat
  historicalDataPoints : Nat
deriving DecidableEq

/-- The early return for a missing/falsy due date. -/
def noDueDateEstimate : DelayEstimate :=
  { predictedDelay := 0
    delayReason := "No due date set"
    confidence := "n/a"
    avgCompletionTime := none
    historicalDataPoints := 0 }

/-- The `except` fallback of the estimator. -/
def calcErrorEstimate : DelayEstimate :=
  { predictedDelay := 0
    delayReason := "Calculation error"
    confidence := "low"
    avgCompletionTime := none
    historicalDataPoints := 0 }

/-- Round half to even (Python's `round`) on an exact rational. -/
def roundHalfEven (x : Rat) : Int :=
  let f := x.floor
  let frac := x - f
  if frac < 1/2 then f
  else if frac > 1/2 then f + 1
  else if f % 2 == 0 then f else f + 1

/-- `round(x, 1)` on an exact rational. -/
def round1 (x : Rat) : Rat :=
  (roundHalfEven (x * 10) : Rat) / 10

/-- `completed_at = module.get('completedAt', datetime.utcnow())`,
resolved to a subtractable datetime: an absent key defaults to now, a
stored datetime is used as is, and a null or string value raises a
`TypeError` at the subtraction `completed_at - due_date_obj`. -/
def completedAtValue (m : Module) (now : Int) : Except String Int :=
  match m.completedAt with
  | none => .ok now
  | some (.vDate t) => .ok t
  | some (.vStr _) => .error "TypeError"
  | some .vNull => .error "TypeError"

/-- `due_date if isinstance(due_date, datetime) else
datetime.fromisoformat(str(due_date).replace('Z', '+00:00'))`. -/
def dueDateObj (due : BsonVal) : Except String Int :=
  match due with
  | .vDate t => .ok t
  | .vStr s => fromisoformat (pyReplace s "Z" "+00:00")
  | .vNull => .error "Invalid isoformat string"

/-- The `$unwind`/`$match`/`$limit 20` aggregation: modules of any
project, in document order, assigned to the user, completed, with both
timestamp keys present (`$exists` is satisfied by null values too). -/
def historyModules (s : Store) (userId : String) : List Module :=
  ((s.projects.flatMap (fun p => p.modules)).filter (fun m =>
      m.assignedToUserId == some userId && m.status == some "completed" &&
      m.completedAt.isSome && m.createdAt.isSome)).take 20

/-- The loop building `completion_times`: pairs where both timestamps are
truthy contribute `(completed - created).days`; a truthy non-datetime
value raises a `TypeError` at the subtraction. -/
def completionTimes : List Module → Except String (List Int)
  | [] => .ok []
  | m :: rest =>
    if optTruthy m.createdAt && optTruthy m.completedAt then
      match m.createdAt, m.completedAt with
      | some (.vDate c), some (.vDate f) => do
          let ts ← completionTimes rest
          .ok (Int.fdiv (f - c) 86400 :: ts)
      | _, _ => .error "TypeError"
    else
      completionTimes rest

/-- The body of the estimator's `try` block.  Store reads require
`avail`; a down store raises like a driver error. -/
def cpdBody (avail : Bool) (s : Store) (m : Module) (userId : String)
    (now : Int) : Except String DelayEstimate :=
  if !optTruthy m.dueDate then
    .ok noDueDateEstimate
  else do
    let completedAt ← completedAtValue m now
    let due ← dueDateObj (m.dueDate.getD .vNull)
    let delayDays := Int.fdiv (completedAt - due) 86400
    let hist ← if avail then .ok (historyModules s userId)
               else .error "ServerSelectionTimeoutError"
    let ts ← completionTimes hist
    let avg : Rat := if ts.isEmpty then 7 else (ts.sum : Rat) / (ts.length : Rat)
    let conf := if ts.length >= 5 then "high"
                else if ts.length >= 2 then "medium" else "low"
    let dlate := delayDays
    let dearly := delayDays.natAbs
    let reason := if delayDays > 0 then s!"Completed {dlate} days late"
                  else if delayDays == 0 then "Completed on time"
                  else s!"Completed {dearly} days early"
    .ok { predictedDelay := delayDays
          delayReason := reason
          confidence := conf
          avgCompletionTime := some (round1 avg)
          historicalDataPoints := ts.length }

/-- `calculate_predictive_delay(module, user_id, projects_collection)`:
the whole body runs under `try`, any raised error degrades to the fixed
`calcErrorEstimate`; the function is total and never propagates. -/
def calculate_predictive_delay (avail : Bool) (s : Store) (m : Module)
    (userId : String) (now : Int) : DelayEstimate :=
  match cpdBody avail s m userId now with
  | .ok e => e
  | .error _ => calcErrorEstimate

/-!
## Completion orchestrator (`validate_github_push`) and webhook endpoint

The whole body of `validate_github_push` runs under `try`; any raised
exception is caught and the function returns `None`.  Store mutations
performed before the exception persist, so the caught error carries the
store state at the raise.  The store-down case is modelled at the first
collection access of a run (`avail` is constant within a run, so later
accesses never observe a different value).  Socket.IO emission is a
fire-and-forget side effect outside the modelled state.
-/

/-- The normalized fields of the inbound GitHub push payload.
`pusherName`/`repositoryName` are `payload.get('pusher', {}).get('name')`
and `payload.get('repository', {}).get('name')`; `commits` is
`len(payload.get('commits', []))`. -/
structure Payload where
  pusherName : Option String
  repositoryName : Option String
  ref : Option String
  commits : Nat
deriving DecidableEq

/-- `str()` of an optional identifier: Python renders a missing value as
the string `"None"`. -/
def strOfOpt (v : Option String) : String :=
  match v with
  | some s => s
  | none => "None"

/-- `ref.split('/')[-1] if ref else None`: the last component of a
`split('/')` is exactly the suffix after the last slash, computed here by
a fold. -/
def branchOf (ref : Option String) : Option String :=
  if strTruthy ref then
    some ⟨(ref.getD "").data.foldl (fun acc c => if c == '/' then [] else acc ++ [c]) []⟩
  else none

/-- The flat response dict assembled on a successful completion
(`result = {...}` then `result.update(delay_info)`; the delay fields are
kept as a nested record here purely for grouping). -/
structure CompletionResult where
  _id : String
  id : Option String
  title : Option String
  description : Option String
  status : String
  assignedToUserId : String
  assignedToName : String
  userRole : String
  projectId : String
  projectName : Option String
  teamId : Option String
  completedAt : Int
  completedBy : String
  completedByUsername : String
  repository : String
  branch : Option String
  commits : Nat
  validationRule : Option ValidationRule
  delay : DelayEstimate
deriving DecidableEq

/-- The `try` body of `validate_github_push`.  Returns the Python result
(`None` for the benign no-match outcomes) with the store, or the raised
error with the store at the raise. -/
def validate_github_push_body (avail : Bool) (s : Store) (payload : Payload)
    (now : Int) : Except (String × Store) (Option CompletionResult × Store) :=
  if !strTruthy payload.pusherName then .ok (none, s)
  else if !strTruthy payload.repositoryName then .ok (none, s)
  else
    let pusher := payload.pusherName.getD ""
    let repoName := payload.repositoryName.getD ""
    let branch := branchOf payload.ref
    if !avail then .error ("ServerSelectionTimeoutError", s)
    else
      match get_user_by_github_username s pusher with
      | none => .ok (none, s)
      | some user =>
        match find_module_in_projects s user._id repoName "in-progress" with
        | none => .ok (none, s)
        | some (project, moduleIndex) =>
          match project.modules.get? moduleIndex with
          | none => .error ("IndexError", s)
          | some m =>
            match update_module_status s project._id moduleIndex now "completed" with
            | (some updated, s') =>
              match findProject s' project._id with
              | none => .error ("AttributeError", s')
              | some fresh =>
                let delayInfo := calculate_predictive_delay avail s' updated user._id now
                .ok (some
                  { _id := m._id.getD ""
                    id := m.id
                    title := m.title
                    description := m.description
                    status := "completed"
                    assignedToUserId := strOfOpt m.assignedToUserId
                    assignedToName := user.name.getD (user.username.getD "Unknown")
                    userRole := user.role.getD "user"
                    projectId := project._id
                    projectName := project.name
                    teamId := if strTruthy fresh.teamId then fresh.teamId else none
                    completedAt := now
                    completedBy := user._id
                    completedByUsername := pusher
                    repository := repoName
                    branch := branch
                    commits := payload.commits
                    validationRule := m.validationRule
                    delay := delayInfo }, s')
            | (none, s') => .ok (none, s')

/-- `validate_github_push(payload)`: the body under `try`, with every
exception caught and turned into the `None` outcome. -/
def validate_github_push (avail : Bool) (s : Store) (payload : Payload)
    (now : Int) : Option CompletionResult × Store :=
  match validate_github_push_body avail s payload now with
  | .ok r => r
  | .error (_, sAtRaise) => (none, sAtRaise)

/-- The three response shapes of the `/webhook/github` endpoint: the 400
`No payload` error, the 200 success with the completed module, and the
200 success-shaped no-match response with its payload summary. -/
inductive WebhookResponse where
  | noPayload
  | matched (result : CompletionResult)
  | noMatch (pusher : Option String) (repo : Option String) (commits : Nat)
deriving DecidableEq

/-- The `/webhook/github` handler: `request.json` absent (or the falsy
empty object, folded onto `none`) yields the 400 response; otherwise the
push is validated and the response distinguishes only matched versus
no-match.  Socket.IO emission on the matched path is outside the modelled
state. -/
def github_webhook (avail : Bool) (s : Store) (payload : Option Payload)
    (now : Int) : WebhookResponse × Store :=
  match payload with
  | none => (.noPayload, s)
  | some p =>
    match validate_github_push avail s p now with
    | (some r, s') => (.matched r, s')
    | (none, s') => (.noMatch p.pusherName p.repositoryName p.commits, s')

/-!
## Concrete documents used by the counterexamples and witnesses below
-/

/-- A user whose GitHub username is `alice`. -/
def exUser : User :=
  { _id := "U1", githubUsername := some "alice", name := some "Alice",
    username := none, role := none }

/-- An in-progress assignment of `U1` with no `validationRule`. -/
def exFallback : Module :=
  { _id := some "mA", id := some "1", title := some "A", description := none,
    assignedToUserId := some "U1", status := some "in-progress",
    validationRule := none, dueDate := none, createdAt := none, completedAt := none }

/-- An in-progress assignment of `U1` whose rule names the `Tracker`
repository. -/
def exRuled : Module :=
  { _id := some "mB", id := some "2", title := some "B", description := none,
    assignedToUserId := some "U1", status := some "in-progress",
    validationRule := some { githubRepo := some "Tracker", hasOtherKeys := false },
    dueDate := none, createdAt := none, completedAt := none }

/-- Project holding the fallback assignment before the rule-matching
one. -/
def c1Project : Project :=
  { _id := "P1", name := some "Proj", teamId := none,
    modules := [exFallback, exRuled] }

/-- Store for the C1 counterexample. -/
def c1Store : Store := { users := [exUser], projects := [c1Project] }

/-- Project holding the rule-matching assignment first. -/
def c1wProject : Project :=
  { _id := "P1", name := some "Proj", teamId := none,
    modules := [exRuled, exFallback] }

/-- Store for the C1 witness. -/
def c1wStore : Store := { users := [exUser], projects := [c1wProject] }

/-- An assignment of `U1` that is already completed, with an earlier
completion timestamp. -/
def c2Done : Module :=
  { _id := some "mD", id := some "3", title := some "Done", description := none,
    assignedToUserId := some "U1", status := some "completed",
    validationRule := none, dueDate := none, createdAt := none,
    completedAt := some (.vDate 5) }

/-- Project holding only the completed assignment. -/
def c2Project : Project :=
  { _id := "P2", name := some "Proj2", teamId := none, modules := [c2Done] }

/-- Store for the C2 counterexample. -/
def c2Store : Store := { users := [exUser], projects := [c2Project] }

/-- Store for the C3 counterexample: a push from `alice` to `Tracker`
that completes an assignment when the store is up. -/
def c3Store : Store := { users := [exUser], projects := [c1wProject] }

/-- A store that simply does not know the pusher. -/
def c3NoUserStore : Store := { users := [], projects := [] }

/-- The event of the C3 counterexample. -/
def c3Event : Payload :=
  { pusherName := some "alice", repositoryName := some "Tracker",
    ref := some "refs/heads/main", commits := 1 }

/-- A store with no documents at all: the history aggregation returns
the empty list. -/
def emptyStore : Store := { users := [], projects := [] }

/-- Assignment due at epoch 0, completed two days late. -/
def c6Late : Module :=
  { _id := some "m6a", id := none, title := some "L", description := none,
    assignedToUserId := some "U1", status := some "completed",
    validationRule := none, dueDate := some (.vDate 0), createdAt := none,
    completedAt := some (.vDate 172800) }

/-- Assignment due at epoch 0, completed exactly on time. -/
def c6OnTime : Module :=
  { c6Late with completedAt := some (.vDate 0) }

/-- Assignment due at epoch 0, completed three days early. -/
def c6Early : Module :=
  { c6Late with completedAt := some (.vDate (-259200)) }

/-- Assignment with no due date. -/
def c7Module : Module :=
  { _id := some "m7", id := none, title := some "N", description := none,
    assignedToUserId := some "U1", status := some "completed",
    validationRule := none, dueDate := none, createdAt := none,
    completedAt := some (.vDate 7) }

/-- A completed history entry of `U1` taking one day. -/
def c8Hist : Module :=
  { _id := some "mh", id := none, title := none, description := none,
    assignedToUserId := some "U1", status := some "completed",
    validationRule := none, dueDate := none, createdAt := some (.vDate 0),
    completedAt := some (.vDate 86400) }

/-- Assignment being estimated in the C8 witness. -/
def c8Module : Module :=
  { _id := some "m8", id := none, title := none, description := none,
    assignedToUserId := some "U1", status := some "completed",
    validationRule := none, dueDate := some (.vDate 0), createdAt := none,
    completedAt := some (.vDate 0) }

/-- Store whose history holds exactly two usable entries for `U1`. -/
def c8Store : Store :=
  { users := [exUser],
    projects := [{ _id := "P8", name := none, teamId := none,
                   modules := [c8Hist, c8Hist] }] }

/-- Assignment whose due date is a malformed date string. -/
def c9Module : Module :=
  { _id := some "m9", id := none, title := none, description := none,
    assignedToUserId := some "U1", status := some "completed",
    validationRule := none, dueDate := some (.vStr "not-a-date"),
    createdAt := none, completedAt := some (.vDate 0) }

/-- Assignment whose rule is present but the empty object. -/
def c10Module : Module :=
  { _id := some "m10", id := none, title := none, description := none,
    assignedToUserId := some "U1", status := some "in-progress",
    validationRule := some { githubRepo := none, hasOtherKeys := false },
    dueDate := none, createdAt := none, completedAt := none }

/-- First of the two identical no-rule in-progress assignments of `U1`. -/
def c5A : Module :=
  { _id := some "m5a", id := some "A", title := some "A", description := none,
    assignedToUserId := some "U1", status := some "in-progress",
    validationRule := none, dueDate := none, createdAt := none,
    completedAt := none }

/-- Second no-rule in-progress assignment of `U1`. -/
def c5B : Module :=
  { c5A with _id := some "m5b", id := some "B", title := some "B" }

/-- Project holding both assignments. -/
def c5Project : Project :=
  { _id := "P5", name := some "Proj5", teamId := none, modules := [c5A, c5B] }

/-- Store for the C5 counterexample. -/
def c5Store : Store := { users := [exUser], projects := [c5Project] }

/-- The event replayed in the C5 counterexample. -/
def c5Event : Payload :=
  { pusherName := some "alice", repositoryName := some "Tracker",
    ref := some "refs/heads/main", commits := 1 }

/-- Project holding a single candidate assignment of `U1`. -/
def c5wProject : Project :=
  { _id := "P5w", name := none, teamId := none, modules := [c5A] }

/-- Store for the C5 witness. -/
def c5wStore : Store := { users := [exUser], projects := [c5wProject] }

/-!
## Supporting lemmas: the matcher is a first-hit scan
-/

/-- One step of the module scan: the head is returned iff it is a
candidate, otherwise the scan continues. -/
theorem findInModules_cons (u r st : String) (m : Module) (rest : List Module)
    (idx : Nat) :
    findInModules u r st (m :: rest) idx =
      if isCandidate u r st m then some idx
      else findInModules u r st rest (idx + 1) := by
  cases hm : moduleMatches u st m with
  | false => simp [findInModules, isCandidate, hm]
  | true =>
    cases ha : ruleActive m.validationRule with
    | false => simp [findInModules, isCandidate, hm, ha]
    | true =>
      cases he : lowerString (ruleRepo m.validationRule) == lowerString r with
      | false => simp [findInModules, isCandidate, hm, ha, he]
      | true => simp [findInModules, isCandidate, hm, ha, he]

/-- The module scan fails exactly when no module is a candidate. -/
theorem findInModules_eq_none_iff (u r st : String) :
    ∀ (mods : List Module) (idx : Nat),
      findInModules u r st mods idx = none ↔
        ∀ m ∈ mods, isCandidate u r st m = false := by
  intro mods
  induction mods with
  | nil => intro idx; simp [findInModules]
  | cons m rest ih =>
    intro idx
    rw [findInModules_cons]
    cases hc : isCandidate u r st m with
    | false => simp [hc, ih (idx + 1)]
    | true => simp [hc]

/-- Soundness of the module scan: a hit points at a candidate. -/
theorem findInModules_some_sound (u r st : String) :
    ∀ (mods : List Module) (idx j : Nat),
      findInModules u r st mods idx = some j →
        idx ≤ j ∧ ∃ m, mods.get? (j - idx) = some m ∧ isCandidate u r st m = true := by
  intro mods
  induction mods with
  | nil => intro idx j h; simp [findInModules] at h
  | cons m rest ih =>
    intro idx j h
    rw [findInModules_cons] at h
    by_cases hc : isCandidate u r st m = true
    · simp [hc] at h
      subst h
      exact ⟨le_refl _, m, by simp, hc⟩
    · simp [hc] at h
      obtain ⟨hle, m', hm', hcand'⟩ := ih (idx + 1) j h
      refine ⟨by omega, m', ?_, hcand'⟩
      have hj : j - idx = (j - (idx + 1)) + 1 := by omega
      rw [hj]
      simpa using hm'

/-- Completeness of the module scan: the first candidate is returned. -/
theorem findInModules_complete (u r st : String) :
    ∀ (mods : List Module) (idx j : Nat) (m : Module),
      mods.get? j = some m → isCandidate u r st m = true →
      (∀ k, k < j → ∀ m', mods.get? k = some m' → isCandidate u r st m' = false) →
      findInModules u r st mods idx = some (idx + j) := by
  intro mods
  induction mods with
  | nil => intro idx j m hm; simp at hm
  | cons m₀ rest ih =>
    intro idx j m hm hc hmin
    rw [findInModules_cons]
    cases j with
    | zero =>
      simp at hm
      subst hm
      simp [hc]
    | succ j' =>
      have h₀ : isCandidate u r st m₀ = false := by
        exact hmin 0 (Nat.succ_pos _) m₀ rfl
      simp only [h₀]
      simp only [Bool.false_eq_true, if_false]
      have hrec := ih (idx + 1) j' m (by simpa using hm) hc
        (fun k hk m' hm' => hmin (k + 1) (by omega) m' (by simpa using hm'))
      rw [hrec]
      congr 1
      omega

/-- The project scan fails exactly when every project's module scan
fails. -/
theorem findInProjects_eq_none_iff (u r st : String) :
    ∀ (ps : List Project),
      findInProjects u r st ps = none ↔
        ∀ p ∈ ps, findInModules u r st p.modules 0 = none := by
  intro ps
  induction ps with
  | nil => simp [findInProjects]
  | cons p rest ih =>
    simp only [findInProjects]
    cases hp : findInModules u r st p.modules 0 with
    | none => simp [hp, ih]
    | some j => simp [hp]

/-- Soundness of the project scan. -/
theorem findInProjects_some_sound (u r st : String) :
    ∀ (ps : List Project) (p : Project) (j : Nat),
      findInProjects u r st ps = some (p, j) →
        p ∈ ps ∧ findInModules u r st p.modules 0 = some j := by
  intro ps
  induction ps with
  | nil => intro p j h; simp [findInProjects] at h
  | cons q rest ih =>
    intro p j h
    simp only [findInProjects] at h
    cases hq : findInModules u r st q.modules 0 with
    | none =>
      rw [hq] at h
      obtain ⟨hmem, hfind⟩ := ih p j h
      exact ⟨List.mem_cons_of_mem _ hmem, hfind⟩
    | some j' =>
      rw [hq] at h
      simp at h
      obtain ⟨hp, hj⟩ := h
      subst hp
      subst hj
      exact ⟨List.mem_cons_self _ _, hq⟩

/-- Projects whose module scan fails are skipped. -/
theorem findInProjects_append_none (u r st : String) :
    ∀ (ps₁ ps₂ : List Project),
      (∀ q ∈ ps₁, findInModules u r st q.modules 0 = none) →
      findInProjects u r st (ps₁ ++ ps₂) = findInProjects u r st ps₂ := by
  intro ps₁
  induction ps₁ with
  | nil => intro ps₂ _; simp
  | cons q rest ih =>
    intro ps₂ hnone
    have hq : findInModules u r st q.modules 0 = none :=
      hnone q (List.mem_cons_self _ _)
    simp only [List.cons_append, findInProjects, hq]
    exact ih ps₂ (fun q' hq' => hnone q' (List.mem_cons_of_mem _ hq'))

/-!
## Supporting lemmas: the store update
-/

/-- `setModuleFields` keeps the document id. -/
theorem setModuleFields_id (p : Project) (i : Nat) (st : String) (now : Int) :
    (setModuleFields p i st now)._id = p._id := by
  unfold setModuleFields
  cases p.modules.get? i <;> rfl

/-- `setModuleFields` keeps the name and team. -/
theorem setModuleFields_name (p : Project) (i : Nat) (st : String) (now : Int) :
    (setModuleFields p i st now).name = p.name ∧
    (setModuleFields p i st now).teamId = p.teamId := by
  unfold setModuleFields
  cases p.modules.get? i <;> exact ⟨rfl, rfl⟩

/-- The module the `$set` addressed, after the write. -/
theorem setModuleFields_get (p : Project) (i : Nat) (st : String) (now : Int)
    (m : Module) (hm : p.modules.get? i = some m) :
    (setModuleFields p i st now).modules.get? i =
      some { m with status := some st, completedAt := some (.vDate now) } := by
  unfold setModuleFields
  rw [hm]
  have hlen : i < p.modules.length := (List.get?_eq_some.mp hm).1
  simp [List.getElem?_set_self', hlen]

/-- Modules other than the addressed one are untouched. -/
theorem setModuleFields_get_ne (p : Project) (i : Nat) (st : String) (now : Int)
    (k : Nat) (hk : k ≠ i) :
    (setModuleFields p i st now).modules.get? k = p.modules.get? k := by
  unfold setModuleFields
  cases hm : p.modules.get? i with
  | none => rfl
  | some m => simp [List.getElem?_set_ne (Ne.symm hk)]

/-- Rewriting the first `_id`-matching document commutes with
`find_one` when the rewrite keeps ids. -/
theorem find?_updateFirstProject (projectId : String) (f : Project → Project)
    (hf : ∀ p, (f p)._id = p._id) :
    ∀ ps : List Project,
      (updateFirstProject projectId f ps).find? (fun p => p._id == projectId) =
        (ps.find? (fun p => p._id == projectId)).map f := by
  intro ps
  induction ps with
  | nil => simp [updateFirstProject]
  | cons p rest ih =>
    by_cases hp : p._id = projectId
    · simp [updateFirstProject, hp, List.find?_cons, hf]
    · have hne : (p._id == projectId) = false := by
        simp [hp]
      simp [updateFirstProject, hne, List.find?_cons, ih]

/-- With pairwise-distinct ids, `find_one` on a member returns that
member. -/
theorem find?_eq_self_of_nodup (ps : List Project) (p : Project)
    (hmem : p ∈ ps) (hnd : (ps.map Project._id).Nodup) :
    ps.find? (fun q => q._id == p._id) = some p := by
  induction ps with
  | nil => simp at hmem
  | cons q rest ih =>
    simp only [List.map_cons, List.nodup_cons] at hnd
    rcases List.mem_cons.mp hmem with hq | hmem'
    · subst hq
      simp [List.find?_cons]
    · have hne : q._id ≠ p._id := by
        intro he
        exact hnd.1 (he ▸ List.mem_map_of_mem Project._id hmem')
      have hne' : (q._id == p._id) = false := by simp [hne]
      simp [List.find?_cons, hne', ih hmem' hnd.2]

/-- Membership after rewriting the first `_id`-matching document. -/
theorem mem_updateFirstProject (projectId : String) (f : Project → Project) :
    ∀ (ps : List Project) (q : Project), q ∈ updateFirstProject projectId f ps →
      q ∈ ps ∨ ∃ p ∈ ps, p._id = projectId ∧ q = f p := by
  intro ps
  induction ps with
  | nil => intro q hq; simp [updateFirstProject] at hq
  | cons p rest ih =>
    intro q hq
    by_cases hp : p._id = projectId
    · have : (p._id == projectId) = true := by simp [hp]
      simp only [updateFirstProject, this, if_true] at hq
      rcases List.mem_cons.mp hq with h | h
      · exact Or.inr ⟨p, List.mem_cons_self _ _, hp, h⟩
      · exact Or.inl (List.mem_cons_of_mem _ h)
    · have : (p._id == projectId) = false := by simp [hp]
      simp only [updateFirstProject, this, if_false] at hq
      rcases List.mem_cons.mp hq with h | h
      · exact Or.inl (h ▸ List.mem_cons_self _ _)
      · rcases ih q h with h' | ⟨p', hp', hid, hfq⟩
        · exact Or.inl (List.mem_cons_of_mem _ h')
        · exact Or.inr ⟨p', List.mem_cons_of_mem _ hp', hid, hfq⟩

/-- Distinct ids force distinct members to differ in id; equal-id members
are equal. -/
theorem eq_of_mem_of_id_eq (ps : List Project) (p q : Project)
    (hnd : (ps.map Project._id).Nodup) (hp : p ∈ ps) (hq : q ∈ ps)
    (hid : p._id = q._id) : p = q := by
  induction ps with
  | nil => simp at hp
  | cons a rest ih =>
    simp only [List.map_cons, List.nodup_cons] at hnd
    rcases List.mem_cons.mp hp with h₁ | h₁ <;> rcases List.mem_cons.mp hq with h₂ | h₂
    · exact h₁.trans h₂.symm
    · subst h₁
      exact absurd (hid ▸ List.mem_map_of_mem Project._id h₂) hnd.1
    · subst h₂
      exact absurd (hid ▸ List.mem_map_of_mem Project._id h₁) hnd.1
    · exact ih hnd.2 h₁ h₂

/-- The update is applied and reported successful whenever it changes
anything, with no condition on the pre-state status: the addressed
module's fields are overwritten outright. -/
theorem update_module_status_unconditional (s : Store) (pid : String) (p : Project)
    (i : Nat) (m : Module) (now : Int) (st' : String)
    (hp : findProject s pid = some p)
    (hm : p.modules.get? i = some m)
    (hchange : m.status ≠ some st' ∨ m.completedAt ≠ some (.vDate now)) :
    update_module_status s pid i now st' =
      (some { m with status := some st', completedAt := some (.vDate now) },
       { s with projects :=
           updateFirstProject pid (fun q => setModuleFields q i st' now) s.projects }) := by
  have hmodif : updateModifies p i st' now = true := by
    unfold updateModifies
    rw [hm]
    rcases hchange with h | h <;> simp [h]
  have hfind' :
      (updateFirstProject pid (fun q => setModuleFields q i st' now) s.projects).find?
          (fun q => q._id == pid) =
        some (setModuleFields p i st' now) := by
    rw [find?_updateFirstProject pid _ (fun q => setModuleFields_id q i st' now)]
    unfold findProject at hp
    rw [hp]
    rfl
  unfold update_module_status
  rw [hp]
  simp only [hmodif, if_true]
  unfold findProject
  simp only [hfind']
  rw [setModuleFields_get p i st' now m hm]

/-- `completion_times` never holds more entries than the history list. -/
theorem completionTimes_length_le :
    ∀ (l : List Module) (ts : List Int),
      completionTimes l = .ok ts → ts.length ≤ l.length := by
  intro l
  induction l with
  | nil =>
    intro ts h
    simp only [completionTimes] at h
    cases h
    simp
  | cons m rest ih =>
    intro ts h
    simp only [completionTimes] at h
    by_cases htr : (optTruthy m.createdAt && optTruthy m.completedAt) = true
    · rw [if_pos htr] at h
      cases hc : m.createdAt with
      | none => rw [hc] at h; simp at h
      | some vc =>
        cases vc with
        | vDate c =>
          cases hf : m.completedAt with
          | none => rw [hc, hf] at h; simp at h
          | some vf =>
            cases vf with
            | vDate f =>
              rw [hc, hf] at h
              cases hrest : completionTimes rest with
              | error e => rw [hrest] at h; simp [Bind.bind, Except.bind] at h
              | ok ts' =>
                rw [hrest] at h
                simp only [Bind.bind, Except.bind, Except.ok.injEq] at h
                subst h
                simpa using Nat.succ_le_succ (ih ts' hrest)
            | vStr s => rw [hc, hf] at h; simp at h
            | vNull => rw [hc, hf] at h; simp at h
        | vStr s => rw [hc] at h; simp at h
        | vNull => rw [hc] at h; simp at h
    · rw [if_neg htr] at h
      exact le_trans (ih ts h) (Nat.le_succ _)

/-- The history the aggregation hands to the loop has at most 20
entries. -/
theorem historyModules_length_le (s : Store) (uid : String) :
    (historyModules s uid).length ≤ 20 := by
  unfold historyModules
  simp only [List.length_take]
  exact Nat.min_le_left 20 _

/-- Evaluation of the estimator body on a well-typed due date and
completion timestamp when the store is up and the history loop
succeeds. -/
theorem cpdBody_ok (s : Store) (m : Module) (uid : String) (now d c : Int)
    (ts : List Int)
    (hdue : m.dueDate = some (.vDate d))
    (hcomp : m.completedAt = some (.vDate c))
    (hts : completionTimes (historyModules s uid) = .ok ts) :
    cpdBody true s m uid now = .ok
      { predictedDelay := Int.fdiv (c - d) 86400
        delayReason :=
          (if Int.fdiv (c - d) 86400 > 0 then
            s!"Completed {Int.fdiv (c - d) 86400} days late"
          else if Int.fdiv (c - d) 86400 == 0 then "Completed on time"
          else s!"Completed {(Int.fdiv (c - d) 86400).natAbs} days early")
        confidence :=
          (if ts.length >= 5 then "high"
           else if ts.length >= 2 then "medium" else "low")
        avgCompletionTime :=
          some (round1 (if ts.isEmpty then 7 else (ts.sum : Rat) / (ts.length : Rat)))
        historicalDataPoints := ts.length } := by
  unfold cpdBody
  rw [hdue]
  simp only [optTruthy, BsonVal.truthy, Bool.not_true, Bool.false_eq_true, if_false,
    completedAtValue, hcomp, dueDateObj, Option.getD_some, Bind.bind, Except.bind,
    if_true]
  rw [hts]

/-!
## Concrete fixtures used by counterexamples and witnesses
-/

/-!
## C1
-/

/-- C1, counterexample.  The store holds, for the same user and in scan
order, first a no-rule in-progress assignment and then an in-progress
assignment whose rule matches the event's repository; the claim says the
rule-matching one is returned regardless of order, but the matcher
returns the rule-less assignment at index 0. -/
theorem C1_counterexample :
    find_module_in_projects c1Store "U1" "Tracker" "in-progress" = some (c1Project, 0) ∧
    c1Project.modules.get? 0 = some exFallback ∧
    exFallback.validationRule = none ∧
    moduleMatches "U1" "in-progress" exFallback = true ∧
    c1Project.modules.get? 1 = some exRuled ∧
    moduleMatches "U1" "in-progress" exRuled = true ∧
    ruleActive exRuled.validationRule = true ∧
    lowerString (ruleRepo exRuled.validationRule) = lowerString "Tracker" := by
  decide

/-- C1, amended: the matcher is a first-hit scan.  It returns the first
assignment in scan order that is a candidate (user and status match, and
either the rule matches the repository case-insensitively or there is no
active rule); a rule-matching assignment is therefore selected exactly
when no candidate — in particular no rule-less fallback — precedes it in
the scan, not regardless of order. -/
theorem C1_first_hit (s : Store) (u r : String) (ps₁ ps₂ : List Project)
    (p : Project) (j : Nat) (m : Module)
    (hs : s.projects = ps₁ ++ p :: ps₂)
    (hskip : ∀ q ∈ ps₁, ∀ m' ∈ q.modules, isCandidate u r "in-progress" m' = false)
    (hm : p.modules.get? j = some m)
    (hcand : isCandidate u r "in-progress" m = true)
    (hmin : ∀ k, k < j → ∀ m', p.modules.get? k = some m' →
        isCandidate u r "in-progress" m' = false) :
    find_module_in_projects s u r "in-progress" = some (p, j) := by
  unfold find_module_in_projects
  rw [hs, findInProjects_append_none u r "in-progress" ps₁ (p :: ps₂)
    (fun q hq => (findInModules_eq_none_iff u r "in-progress" q.modules 0).mpr
      (hskip q hq))]
  simp only [findInProjects]
  rw [findInModules_complete u r "in-progress" p.modules 0 j m hm hcand hmin]
  simp

/-- C1 witness: with the rule-matching assignment first in scan order the
matcher selects it. -/
theorem C1_witness :
    find_module_in_projects c1wStore "U1" "Tracker" "in-progress" =
      some (c1wProject, 0) :=
  C1_first_hit c1wStore "U1" "Tracker" [] [] c1wProject 0 exRuled rfl
    (fun q hq => absurd hq (List.not_mem_nil q))
    rfl (by decide)
    (fun k hk => absurd hk (Nat.not_lt_zero k))

/-!
## C2
-/

/-- C2, counterexample.  The addressed assignment is already `completed`
(not `in-progress`), yet the update overwrites its `completedAt` (from 5
to 99) and reports success by returning the updated module — the claim's
"no field of it is overwritten and the operation reports failure" fails
here. -/
theorem C2_counterexample :
    c2Done.status = some "completed" ∧
    update_module_status c2Store "P2" 0 99 "completed" =
      (some { c2Done with completedAt := some (.vDate 99) },
       { users := [exUser],
         projects := [{ c2Project with
                        modules := [{ c2Done with completedAt := some (.vDate 99) }] }] }) ∧
    (update_module_status c2Store "P2" 0 99 "completed").2 ≠ c2Store := by
  decide

/-- C2, amended: the update is unconditional.  Whatever the assignment's
pre-state status, `update_module_status` overwrites `status` and
`completedAt` on the addressed `(project id, module index)` pair and
reports success whenever the write changes anything (here: whenever the
stored `completedAt` differs from the new timestamp); it reports failure
only when the write is a no-op, never because the assignment left the
`in-progress` state. -/
theorem C2_blind_update (s : Store) (pid : String) (p : Project) (i : Nat)
    (m : Module) (now : Int)
    (hp : findProject s pid = some p)
    (hm : p.modules.get? i = some m)
    (hpre : m.completedAt ≠ some (.vDate now)) :
    (update_module_status s pid i now "completed").1 =
      some { m with status := some "completed", completedAt := some (.vDate now) } := by
  rw [update_module_status_unconditional s pid p i m now "completed" hp hm (Or.inr hpre)]

/-- C2 witness: the amended statement applied to the concrete
already-completed assignment. -/
theorem C2_witness :
    (update_module_status c2Store "P2" 0 99 "completed").1 =
      some { c2Done with status := some "completed", completedAt := some (.vDate 99) } :=
  C2_blind_update c2Store "P2" c2Project 0 c2Done 99 rfl rfl (by decide)

/-!
## C3
-/

/-- C3: a store failure during processing is swallowed, not surfaced.
For every store state, payload and time, when the store is unavailable
`validate_github_push` catches the driver error and returns the very
`None` outcome used for benign no-match cases, leaving the store
untouched, and the webhook endpoint answers with the same success-shaped
no-match response it gives benign events — no distinct operational
failure reaches the caller. -/
theorem C3_store_error_swallowed (s : Store) (p : Payload) (now : Int) :
    validate_github_push false s p now = (none, s) ∧
    github_webhook false s (some p) now =
      (WebhookResponse.noMatch p.pusherName p.repositoryName p.commits, s) := by
  have h1 : validate_github_push false s p now = (none, s) := by
    unfold validate_github_push validate_github_push_body
    cases hpu : strTruthy p.pusherName <;> cases hrp : strTruthy p.repositoryName <;>
      simp [hpu, hrp]
  refine ⟨h1, ?_⟩
  unfold github_webhook
  simp only [h1]

/-- C3, counterexample.  With the store down, the endpoint returns
exactly the benign no-match response — byte-identical in shape to the
response for an unknown user — although the same event against the same
(healthy) store completes a task; no distinct operational failure is
surfaced. -/
theorem C3_counterexample :
    github_webhook false c3Store (some c3Event) 0 =
      (WebhookResponse.noMatch (some "alice") (some "Tracker") 1, c3Store) ∧
    github_webhook true c3NoUserStore (some c3Event) 0 =
      (WebhookResponse.noMatch (some "alice") (some "Tracker") 1, c3NoUserStore) ∧
    (github_webhook true c3Store (some c3Event) 0).1 ≠
      (github_webhook false c3Store (some c3Event) 0).1 := by
  refine ⟨by decide, by decide, by decide⟩

/-!
## C4
-/

/-- C4: a non-matching rule excludes its assignment.  Whenever the
matcher returns an assignment that carries an active `validationRule`
(a non-empty `githubRepo`), that rule's repository equals the event's
repository case-insensitively; contrapositively, an assignment whose
rule names a different repository is never returned — for any store,
in particular also when it is the user's only in-progress assignment. -/
theorem C4_nonmatching_rule_excluded (s : Store) (u r : String) (p : Project)
    (j : Nat) (m : Module)
    (hfind : find_module_in_projects s u r "in-progress" = some (p, j))
    (hm : p.modules.get? j = some m)
    (hactive : ruleActive m.validationRule = true) :
    lowerString (ruleRepo m.validationRule) = lowerString r := by
  obtain ⟨-, hmods⟩ :=
    findInProjects_some_sound u r "in-progress" s.projects p j hfind
  obtain ⟨-, m', hm', hcand⟩ :=
    findInModules_some_sound u r "in-progress" p.modules 0 j hmods
  rw [Nat.sub_zero, hm] at hm'
  cases hm'
  unfold isCandidate at hcand
  rw [hactive] at hcand
  simp only [if_true, Bool.and_eq_true, beq_iff_eq] at hcand
  exact hcand.2

/-- C4 witness: the matcher returns the rule-carrying assignment for an
event repository differing only in case, and the rule's repository
matches case-insensitively. -/
theorem C4_witness :
    find_module_in_projects c1wStore "U1" "TRACKER" "in-progress" =
      some (c1wProject, 0) ∧
    lowerString (ruleRepo exRuled.validationRule) = lowerString "TRACKER" :=
  ⟨by decide,
   C4_nonmatching_rule_excluded c1wStore "U1" "TRACKER" c1wProject 0 exRuled
     (by decide) rfl rfl⟩

/-!
## C6 – C9: the delay estimator
-/

/-- C6: delay sign.  For a completed assignment whose due date and
completion timestamp are datetimes a whole number `k` of days apart
(store up, history loop clean), the estimator returns `predictedDelay =
k` — positive late, zero on time, negative early — and the reason text
states the matching case with the matching day count. -/
theorem C6_delay_sign (s : Store) (m : Module) (uid : String) (now d k : Int)
    (ts : List Int)
    (hdue : m.dueDate = some (.vDate d))
    (hcomp : m.completedAt = some (.vDate (d + k * 86400)))
    (hts : completionTimes (historyModules s uid) = .ok ts) :
    (calculate_predictive_delay true s m uid now).predictedDelay = k ∧
    (calculate_predictive_delay true s m uid now).delayReason =
      (if 0 < k then s!"Completed {k} days late"
       else if k = 0 then "Completed on time"
       else s!"Completed {k.natAbs} days early") := by
  have hb := cpdBody_ok s m uid now d (d + k * 86400) ts hdue hcomp hts
  have hdd : Int.fdiv (d + k * 86400 - d) 86400 = k := by
    have he : d + k * 86400 - d = k * 86400 := by ring
    rw [he, Int.mul_fdiv_cancel _ (by norm_num)]
  unfold calculate_predictive_delay
  rw [hb]
  refine ⟨hdd, ?_⟩
  show (if Int.fdiv (d + k * 86400 - d) 86400 > 0 then _
        else if (Int.fdiv (d + k * 86400 - d) 86400 == 0) = true then _ else _) = _
  rw [hdd]
  simp only [gt_iff_lt, beq_iff_eq]

/-- C6 witness: the three concrete cases of the claim. -/
theorem C6_witness :
    (calculate_predictive_delay true emptyStore c6Late "U1" 0).predictedDelay = 2 ∧
    (calculate_predictive_delay true emptyStore c6Late "U1" 0).delayReason =
      "Completed 2 days late" ∧
    (calculate_predictive_delay true emptyStore c6OnTime "U1" 0).predictedDelay = 0 ∧
    (calculate_predictive_delay true emptyStore c6OnTime "U1" 0).delayReason =
      "Completed on time" ∧
    (calculate_predictive_delay true emptyStore c6Early "U1" 0).predictedDelay = -3 ∧
    (calculate_predictive_delay true emptyStore c6Early "U1" 0).delayReason =
      "Completed 3 days early" := by
  have hL := C6_delay_sign emptyStore c6Late "U1" 0 0 2 [] rfl (by decide) rfl
  have hO := C6_delay_sign emptyStore c6OnTime "U1" 0 0 0 [] rfl (by decide) rfl
  have hE := C6_delay_sign emptyStore c6Early "U1" 0 0 (-3) [] rfl (by decide) rfl
  refine ⟨hL.1, ?_, hO.1, ?_, hE.1, ?_⟩
  · rw [hL.2]; decide
  · rw [hO.2]; decide
  · rw [hE.2]; decide

/-- C7: missing due date.  For every assignment whose `dueDate` key is
absent the estimator returns exactly the fixed record — and it does so
for any store availability, in particular with the store down, showing
the user's history is never consulted on this path. -/
theorem C7_no_due_date (avail : Bool) (s : Store) (m : Module) (uid : String)
    (now : Int) (h : m.dueDate = none) :
    calculate_predictive_delay avail s m uid now =
      { predictedDelay := 0, delayReason := "No due date set",
        confidence := "n/a", avgCompletionTime := none,
        historicalDataPoints := 0 } := by
  unfold calculate_predictive_delay cpdBody
  rw [h]
  rfl

/-- C7 witness, evaluated with the store down: the fixed record is
returned without any store access. -/
theorem C7_witness :
    calculate_predictive_delay false emptyStore c7Module "U1" 0 =
      { predictedDelay := 0, delayReason := "No due date set",
        confidence := "n/a", avgCompletionTime := none,
        historicalDataPoints := 0 } :=
  C7_no_due_date false emptyStore c7Module "U1" 0 rfl

/-- C8: confidence thresholds.  With a due date present and the history
loop clean, the reported point count is the number of usable history
entries (at most 20 by the aggregation limit), and the confidence is
`high` exactly for at least 5 points, `medium` exactly for 2–4, and
`low` exactly for 0–1. -/
theorem C8_confidence_thresholds (s : Store) (m : Module) (uid : String)
    (now d c : Int) (ts : List Int)
    (hdue : m.dueDate = some (.vDate d))
    (hcomp : m.completedAt = some (.vDate c))
    (hts : completionTimes (historyModules s uid) = .ok ts) :
    (calculate_predictive_delay true s m uid now).historicalDataPoints = ts.length ∧
    ts.length ≤ 20 ∧
    ((calculate_predictive_delay true s m uid now).confidence = "high" ↔
      5 ≤ ts.length) ∧
    ((calculate_predictive_delay true s m uid now).confidence = "medium" ↔
      (2 ≤ ts.length ∧ ts.length < 5)) ∧
    ((calculate_predictive_delay true s m uid now).confidence = "low" ↔
      ts.length < 2) := by
  have hb := cpdBody_ok s m uid now d c ts hdue hcomp hts
  unfold calculate_predictive_delay
  rw [hb]
  refine ⟨rfl,
    le_trans (completionTimes_length_le _ ts hts) (historyModules_length_le s uid),
    ?_, ?_, ?_⟩ <;>
  · show (if ts.length ≥ 5 then "high"
          else if ts.length ≥ 2 then "medium" else "low") = _ ↔ _
    by_cases h5 : 5 ≤ ts.length
    · simp [h5] <;> omega
    · by_cases h2 : 2 ≤ ts.length
      · simp [h5, h2] <;> omega
      · simp [h5, h2] <;> omega

/-- C8 witness: two historical points give `medium` confidence and a
reported count of 2. -/
theorem C8_witness :
    (calculate_predictive_delay true c8Store c8Module "U1" 0).historicalDataPoints = 2 ∧
    (calculate_predictive_delay true c8Store c8Module "U1" 0).confidence = "medium" := by
  have h := C8_confidence_thresholds c8Store c8Module "U1" 0 0 0 [1, 1] rfl rfl (by rfl)
  exact ⟨h.1, (h.2.2.2.1).mpr ⟨by decide, by decide⟩⟩

/-- C9: failures degrade to the fixed error record.  The estimator is a
total function by construction; whenever its `try` body raises (malformed
date, non-datetime history timestamp, store error), the caught path
returns exactly the fixed `Calculation error` record, so the estimator
can never fail the completion it is attached to. -/
theorem C9_error_degrades (avail : Bool) (s : Store) (m : Module) (uid : String)
    (now : Int) (e : String)
    (h : cpdBody avail s m uid now = .error e) :
    calculate_predictive_delay avail s m uid now =
      { predictedDelay := 0, delayReason := "Calculation error",
        confidence := "low", avgCompletionTime := none,
        historicalDataPoints := 0 } := by
  unfold calculate_predictive_delay
  rw [h]
  rfl

/-- C9 witness: a malformed due-date string makes the body raise, and the
estimator returns the fixed error record. -/
theorem C9_witness :
    calculate_predictive_delay true emptyStore c9Module "U1" 0 =
      { predictedDelay := 0, delayReason := "Calculation error",
        confidence := "low", avgCompletionTime := none,
        historicalDataPoints := 0 } :=
  C9_error_degrades true emptyStore c9Module "U1" 0 "Invalid isoformat string"
    (by rfl)

/-!
## C10
-/

/-- C10: a present-but-empty rule is a fallback.  An in-progress
assignment of the user whose `validationRule` is present but is the
empty object, or carries no non-empty `githubRepo`, never activates the
rule branch: it is a candidate for every event repository, the scan
returns it the moment it is reached, and the scan result is identical to
that for the same assignment with no `validationRule` at all. -/
theorem C10_empty_rule_is_fallback (u r st : String) (m : Module)
    (vr : ValidationRule) (rest : List Module) (idx : Nat)
    (hmm : moduleMatches u st m = true)
    (hvr : m.validationRule = some vr)
    (hrepo : vr.githubRepo = none ∨ vr.githubRepo = some "") :
    ruleActive m.validationRule = false ∧
    isCandidate u r st m = true ∧
    findInModules u r st (m :: rest) idx = some idx ∧
    findInModules u r st (m :: rest) idx =
      findInModules u r st ({ m with validationRule := none } :: rest) idx := by
  have hact : ruleActive m.validationRule = false := by
    rw [hvr]
    rcases hrepo with h | h <;>
      simp [ruleActive, ValidationRule.truthy, ValidationRule.repoTruthy, h] <;>
      decide
  have hmm' : moduleMatches u st { m with validationRule := none } = true := hmm
  have hcand : isCandidate u r st m = true := by
    unfold isCandidate
    rw [hact, hmm]
    simp
  refine ⟨hact, hcand, ?_, ?_⟩
  · rw [findInModules_cons]
    simp [hcand]
  · rw [findInModules_cons, findInModules_cons]
    have hcand' : isCandidate u r st { m with validationRule := none } = true := by
      unfold isCandidate
      rw [hmm']
      simp [ruleActive]
    simp [hcand, hcand']

/-- C10 witness: the empty-rule assignment is returned at once even for
an event repository no rule mentions. -/
theorem C10_witness :
    findInModules "U1" "entirely-unrelated-repo" "in-progress" [c10Module] 0 =
      some 0 :=
  (C10_empty_rule_is_fallback "U1" "entirely-unrelated-repo" "in-progress"
    c10Module { githubRepo := none, hasOtherKeys := false } [] 0 (by decide) rfl
    (Or.inl rfl)).2.2.1

/-!
## C5
-/

/-- With no earlier `_id` match in the prefix, rewriting the first match
lands on the distinguished document. -/
theorem updateFirstProject_append (pid : String) (f : Project → Project)
    (ps₁ : List Project) (p : Project) (ps₂ : List Project)
    (h₁ : ∀ q ∈ ps₁, q._id ≠ pid) (hp : p._id = pid) :
    updateFirstProject pid f (ps₁ ++ p :: ps₂) = ps₁ ++ f p :: ps₂ := by
  induction ps₁ with
  | nil =>
    simp only [List.nil_append, updateFirstProject]
    simp [hp]
  | cons q rest ih =>
    have hq : (q._id == pid) = false := by
      simp [h₁ q (List.mem_cons_self _ _)]
    simp only [List.cons_append, updateFirstProject, hq, Bool.false_eq_true,
      if_false, List.append_eq]
    rw [ih (fun q' hq' => h₁ q' (List.mem_cons_of_mem _ hq'))]

/-- C5, counterexample.  The first processing completes assignment `A`;
replaying the identical event against the resulting store does not
return `NoMatch`: it completes the user's other in-progress assignment
`B` and mutates the store again. -/
theorem C5_counterexample :
    ((validate_github_push true c5Store c5Event 100).1.map
        CompletionResult.title = some (some "A")) ∧
    ((validate_github_push true (validate_github_push true c5Store c5Event 100).2
        c5Event 200).1.map CompletionResult.title = some (some "B")) ∧
    (validate_github_push true (validate_github_push true c5Store c5Event 100).2
        c5Event 200).2 ≠ (validate_github_push true c5Store c5Event 100).2 := by
  decide

/-- C5, amended: replay is a no-op only when the completed assignment was
the user's sole candidate.  If the matcher's pick `(p, j)` is the only
candidate assignment of the resolved user anywhere in the store (and
project ids are distinct, as Mongo guarantees), then the first processing
completes it and replaying the identical event against the resulting
store returns `NoMatch` and leaves the store untouched — because the
completed assignment no longer passes the `in-progress` filter.  Without
that uniqueness the replay may complete another assignment
(`C5_counterexample`). -/
theorem C5_replay_no_match (s : Store) (ev : Payload) (now now' : Int)
    (rp : String) (user : User) (p : Project) (j : Nat)
    (hpu : strTruthy ev.pusherName = true)
    (hrp : ev.repositoryName = some rp)
    (hrpne : rp ≠ "")
    (huser : get_user_by_github_username s (ev.pusherName.getD "") = some user)
    (hfind : find_module_in_projects s user._id rp "in-progress" = some (p, j))
    (hnd : (s.projects.map Project._id).Nodup)
    (huniq : ∀ q ∈ s.projects, ∀ k m', q.modules.get? k = some m' →
        isCandidate user._id rp "in-progress" m' = true → q = p ∧ k = j) :
    ∃ r s', validate_github_push true s ev now = (some r, s') ∧
      validate_github_push true s' ev now' = (none, s') := by
  -- dissect the successful match
  obtain ⟨hmem, hmods⟩ :=
    findInProjects_some_sound user._id rp "in-progress" s.projects p j hfind
  obtain ⟨-, m, hm0, hcand⟩ :=
    findInModules_some_sound user._id rp "in-progress" p.modules 0 j hmods
  rw [Nat.sub_zero] at hm0
  have hstat : m.status = some "in-progress" := by
    have hc := hcand
    unfold isCandidate moduleMatches at hc
    simp only [Bool.and_eq_true, beq_iff_eq] at hc
    exact hc.1.2
  -- the update lands on the matched project and is reported successful
  have hp0 : findProject s p._id = some p := by
    unfold findProject
    exact find?_eq_self_of_nodup s.projects p hmem hnd
  have hupd := update_module_status_unconditional s p._id p j m now "completed"
    hp0 hm0 (Or.inl (by rw [hstat]; simp))
  have hfresh :
      findProject
        (Store.mk s.users (updateFirstProject p._id
          (fun q => setModuleFields q j "completed" now) s.projects)) p._id =
        some (setModuleFields p j "completed" now) := by
    unfold findProject
    show (updateFirstProject p._id
        (fun q => setModuleFields q j "completed" now) s.projects).find? _ = _
    rw [find?_updateFirstProject p._id _
      (fun q => setModuleFields_id q j "completed" now)]
    unfold findProject at hp0
    rw [hp0]
    rfl
  have hrpt : strTruthy ev.repositoryName = true := by
    rw [hrp]
    show (!rp.isEmpty) = true
    cases hE : rp.isEmpty with
    | false => rfl
    | true => exact absurd ((String.isEmpty_iff rp).mp hE) hrpne
  -- the first processing succeeds
  have hrun : ∃ r, validate_github_push true s ev now =
      (some r,
       Store.mk s.users (updateFirstProject p._id
         (fun q => setModuleFields q j "completed" now) s.projects)) := by
    unfold validate_github_push validate_github_push_body
    rw [hrp] at hrpt ⊢
    simp only [hpu, hrpt, Bool.not_true, Bool.false_eq_true, if_false,
      Option.getD_some, huser, hfind, hm0, hupd, hfresh]
    exact ⟨_, rfl⟩
  -- the store after the update, as an explicit decomposition
  obtain ⟨ps₁, ps₂, hsplit⟩ := List.append_of_mem hmem
  have hnd' := hnd
  rw [hsplit] at hnd'
  simp only [List.map_append, List.map_cons] at hnd'
  obtain ⟨hnd₁, hnd₂, hdisj⟩ := List.nodup_append.mp hnd'
  have hnotin₁ : ∀ q ∈ ps₁, q._id ≠ p._id := by
    intro q hq he
    exact hdisj (he ▸ List.mem_map_of_mem Project._id hq) (List.mem_cons_self _ _)
  have hnotin₂ : ∀ q ∈ ps₂, q._id ≠ p._id := by
    intro q hq he
    exact (List.nodup_cons.mp hnd₂).1 (he ▸ List.mem_map_of_mem Project._id hq)
  have hupdlist :
      updateFirstProject p._id (fun q => setModuleFields q j "completed" now)
        s.projects = ps₁ ++ setModuleFields p j "completed" now :: ps₂ := by
    rw [hsplit]
    exact updateFirstProject_append p._id _ ps₁ p ps₂ hnotin₁ rfl
  -- no candidate survives in the updated store
  have hnocand : ∀ q ∈ ps₁ ++ setModuleFields p j "completed" now :: ps₂,
      ∀ m'' ∈ q.modules, isCandidate user._id rp "in-progress" m'' = false := by
    intro q hq m'' hm''
    obtain ⟨k, hk⟩ := List.get?_of_mem hm''
    cases hcand'' : isCandidate user._id rp "in-progress" m'' with
    | false => rfl
    | true =>
      exfalso
      rcases List.mem_append.mp hq with hq₁ | hq₂
      · -- a project before the matched one: any candidate contradicts uniqueness
        have hqmem : q ∈ s.projects := by
          rw [hsplit]
          exact List.mem_append.mpr (Or.inl hq₁)
        obtain ⟨hqp, -⟩ := huniq q hqmem k m'' hk hcand''
        exact hnotin₁ q hq₁ (by rw [hqp])
      · rcases List.mem_cons.mp hq₂ with hqp | hq₃
        · -- the rewritten project: index j is now completed, others unique
          subst hqp
          by_cases hkj : k = j
          · subst hkj
            rw [setModuleFields_get p k "completed" now m hm0] at hk
            cases hk
            unfold isCandidate moduleMatches at hcand''
            simp at hcand''
          · rw [setModuleFields_get_ne p j "completed" now k hkj] at hk
            obtain ⟨-, hkj'⟩ := huniq p hmem k m'' hk hcand''
            exact hkj hkj'
        · -- a project after the matched one
          have hqmem : q ∈ s.projects := by
            rw [hsplit]
            exact List.mem_append.mpr (Or.inr (List.mem_cons_of_mem _ hq₃))
          obtain ⟨hqp, -⟩ := huniq q hqmem k m'' hk hcand''
          exact hnotin₂ q hq₃ (by rw [hqp])
  -- hence the replay finds nothing and mutates nothing
  obtain ⟨r, hrunEq⟩ := hrun
  refine ⟨r, _, hrunEq, ?_⟩
  have hfind2 : find_module_in_projects
      (Store.mk s.users (updateFirstProject p._id
        (fun q => setModuleFields q j "completed" now) s.projects))
      user._id rp "in-progress" = none := by
    unfold find_module_in_projects
    show findInProjects user._id rp "in-progress"
      (updateFirstProject p._id (fun q => setModuleFields q j "completed" now)
        s.projects) = none
    rw [hupdlist]
    apply (findInProjects_eq_none_iff user._id rp "in-progress" _).mpr
    intro q hq
    exact (findInModules_eq_none_iff user._id rp "in-progress" q.modules 0).mpr
      (hnocand q hq)
  have huser2 : get_user_by_github_username
      (Store.mk s.users (updateFirstProject p._id
        (fun q => setModuleFields q j "completed" now) s.projects))
      (ev.pusherName.getD "") = some user := huser
  unfold validate_github_push validate_github_push_body
  rw [hrp] at hrpt ⊢
  simp only [hpu, hrpt, Bool.not_true, Bool.false_eq_true, if_false,
    Option.getD_some, huser2, hfind2]

/-- C5 witness: with a sole candidate, the first processing succeeds and
the replay returns the no-match outcome without touching the store. -/
theorem C5_witness :
    (validate_github_push true c5wStore c5Event 100).1.isSome = true ∧
    validate_github_push true (validate_github_push true c5wStore c5Event 100).2
        c5Event 200 =
      (none, (validate_github_push true c5wStore c5Event 100).2) := by
  obtain ⟨r, s', h1, h2⟩ :=
    C5_replay_no_match c5wStore c5Event 100 200 "Tracker" exUser c5wProject 0
      (by decide) rfl (by decide) rfl (by decide) (by decide)
      (by
        intro q hq k m' hk hc
        have hq' : q = c5wProject := by
          simpa [c5wStore, List.mem_singleton] using hq
        subst hq'
        refine ⟨rfl, ?_⟩
        cases k with
        | zero => rfl
        | succ k' => simp [c5wProject] at hk)
  rw [h1]
  exact ⟨rfl, h2⟩

end ValidationEngine
